import Mathlib

/-!
Shallow embedding of the Trip-based elevator dispatch engine from
`src/assignment/baseline_controller.py` (class `GreedyNearestController`
and its helper dataclasses), together with proofs of the behavioural
properties stated in the design document.

Python dictionaries are modelled as association lists (first match wins,
in-place replacement preserves insertion order, new keys are appended),
Python `set` as `Finset ℕ`, `deque` as `List ℤ`, integers as `ℤ`/`ℕ`,
and float ratio comparisons as exact rational arithmetic over `ℚ`.
-/

/-- Direction values used by the controller (`Direction.UP/DOWN/STOPPED`). -/
inductive Direction where
  | up
  | down
  | stopped
deriving DecidableEq

/-- Traffic modes (`TrafficMode.UP_PEAK/DOWN_PEAK/INTERFLOOR`). -/
inductive TrafficMode where
  | upPeak
  | downPeak
  | interfloor
deriving DecidableEq

/-- Lookup in an association list, first match wins (Python `dict.get`). -/
def alGet {κ α : Type} [DecidableEq κ] : List (κ × α) → κ → Option α
  | [], _ => none
  | (k', v) :: rest, k => if k' = k then some v else alGet rest k

/-- Lookup with a default value (Python `dict.get(k, d)`). -/
def alGetD {κ α : Type} [DecidableEq κ] (m : List (κ × α)) (k : κ) (d : α) : α :=
  (alGet m k).getD d

/-- Store a value: replace the first binding of the key in place, else append
(Python `dict[k] = v` keeps the key's insertion position). -/
def alSet {κ α : Type} [DecidableEq κ] : List (κ × α) → κ → α → List (κ × α)
  | [], k, v => [(k, v)]
  | (k', v') :: rest, k, v =>
      if k' = k then (k, v) :: rest else (k', v') :: alSet rest k v

/-- Remove all bindings of a key (Python `dict.pop(k, None)`; dictionaries
have unique keys, so on well-formed maps this removes the one binding). -/
def alPop {κ α : Type} [DecidableEq κ] (m : List (κ × α)) (k : κ) : List (κ × α) :=
  m.filter (fun p => p.1 ≠ k)

/-- Keys of an association list are pairwise distinct (true of every Python dict). -/
def alKeysNodup {κ α : Type} (m : List (κ × α)) : Prop :=
  (m.map Prod.fst).Nodup

instance {κ α : Type} [DecidableEq κ] (m : List (κ × α)) : Decidable (alKeysNodup m) := by
  unfold alKeysNodup; infer_instance

/-- Trip dataclass: direction, corridor bounds, stop sequence, reserved
pickup counts per floor, reserved passenger ids, and the committed stop. -/
structure Trip where
  direction : Direction
  corridorLow : ℤ
  corridorHigh : ℤ
  stops : List ℤ
  reservedPickups : List (ℤ × ℤ)
  reservedPassengers : Finset ℕ
  currentStop : Option ℤ
deriving DecidableEq

/-- Trip.has_pending. -/
def Trip.hasPending (t : Trip) : Bool :=
  t.currentStop.isSome || !t.stops.isEmpty

/-- Trip.peek_next. -/
def Trip.peekNext (t : Trip) : Option ℤ :=
  match t.currentStop with
  | some c => some c
  | none =>
    match t.stops with
    | [] => none
    | f :: _ => some f

/-- Trip.pop_next: returns the committed stop if set, else pops the head of
`stops` into `current_stop`; result is the returned floor and the new trip. -/
def Trip.popNext (t : Trip) : Option ℤ × Trip :=
  match t.currentStop with
  | some c => (some c, t)
  | none =>
    match t.stops with
    | [] => (none, t)
    | f :: rest => (some f, { t with currentStop := some f, stops := rest })

/-- Trip.mark_stop_completed: clear `current_stop` when it matches, otherwise
filter the floor out of `stops`. -/
def Trip.markStopCompleted (t : Trip) (floor : ℤ) : Trip :=
  if t.currentStop = some floor then { t with currentStop := none }
  else { t with stops := t.stops.filter (fun f => f ≠ floor) }

/-- Ordered insertion for UP trips (`Trip._insert_ascending`): insert before
the first existing stop that is greater, else append. -/
def insertAscending : List ℤ → ℤ → List ℤ
  | [], f => [f]
  | x :: xs, f => if f < x then f :: x :: xs else x :: insertAscending xs f

/-- Ordered insertion for DOWN trips (`Trip._insert_descending`). -/
def insertDescending : List ℤ → ℤ → List ℤ
  | [], f => [f]
  | x :: xs, f => if f > x then f :: x :: xs else x :: insertDescending xs f

/-- Trip.add_stop with its `to_front` keyword: no-op when the floor is the
committed stop; `to_front` removes any occurrence and prepends; otherwise a
duplicate is ignored and the floor is inserted in the direction's order. -/
def Trip.addStop (t : Trip) (floor : ℤ) (toFront : Bool) : Trip :=
  if t.currentStop = some floor then t
  else if toFront then
    if floor ∈ t.stops then
      { t with stops := floor :: t.stops.filter (fun f => f ≠ floor) }
    else
      { t with stops := floor :: t.stops }
  else if floor ∈ t.stops then t
  else
    match t.direction with
    | .up => { t with stops := insertAscending t.stops floor }
    | .down => { t with stops := insertDescending t.stops floor }
    | .stopped => { t with stops := t.stops ++ [floor] }

/-- Trip.replace_current_stop: reinsert the previous committed stop at the
head of `stops`, remove the new floor from `stops`, commit the new floor. -/
def Trip.replaceCurrentStop (t : Trip) (newFloor : ℤ) : Trip :=
  if t.currentStop = some newFloor then t
  else
    let stops1 :=
      match t.currentStop with
      | none => t.stops
      | some prev =>
        if prev ∈ t.stops then prev :: t.stops.filter (fun f => f ≠ prev)
        else prev :: t.stops
    let stops2 :=
      if newFloor ∈ stops1 then stops1.filter (fun f => f ≠ newFloor) else stops1
    { t with currentStop := some newFloor, stops := stops2 }

/-- Trip.total_reserved_boarding: sum of the reserved pickup counts. -/
def pickSum (m : List (ℤ × ℤ)) : ℤ :=
  (m.map Prod.snd).sum

/-- Trip.adjust_reservation: bump the pickup count at a floor, dropping the
key when the count falls to zero or below, and track the passenger id in the
reserved set according to the sign of the delta. -/
def Trip.adjustReservation (t : Trip) (floor : ℤ) (delta : ℤ) (passengerId : Option ℕ) : Trip :=
  if delta = 0 then t
  else
    let v := alGetD t.reservedPickups floor 0 + delta
    let rp := if v ≤ 0 then alPop t.reservedPickups floor else alSet t.reservedPickups floor v
    let ps :=
      match passengerId with
      | none => t.reservedPassengers
      | some p => if 0 < delta then insert p t.reservedPassengers else t.reservedPassengers.erase p
    { t with reservedPickups := rp, reservedPassengers := ps }

/-- Trip.clear_reservations. -/
def Trip.clearReservations (t : Trip) : Trip :=
  { t with reservedPickups := [], reservedPassengers := ∅ }

/-- Structural well-formedness of a trip: the stop sequence has no duplicate
floors and the committed stop, when set, does not occur in `stops`. -/
def TripInv (t : Trip) : Prop :=
  t.stops.Nodup ∧ ∀ c, t.currentStop = some c → c ∉ t.stops

/-- Sequence a trip plans to serve: the committed stop (when set) followed by
the remaining stops. -/
def Trip.plannedSeq (t : Trip) : List ℤ :=
  (match t.currentStop with
   | some c => [c]
   | none => []) ++ t.stops

/-- PendingRequest dataclass from the controller. -/
structure PendingRequest where
  passengerId : ℕ
  origin : ℤ
  destination : ℤ
  direction : Direction
  arriveTick : ℤ
  assignedElevator : Option ℕ
  assignedTick : Option ℤ
deriving DecidableEq

/-- Read-only view of a simulator elevator as the controller consumes it:
id, current floor, whether `run_status` is "stopped", passenger count,
capacity, and `served_floors` (empty meaning unrestricted). -/
structure ElevView where
  id : ℕ
  currentFloor : ℤ
  stopped : Bool
  passengers : ℕ
  maxCapacity : ℕ
  servedFloors : List ℤ
deriving DecidableEq

/-- FloorDemand dataclass: up/down counts and destination counters. -/
structure FloorDemand where
  upCount : ℕ
  downCount : ℕ
  upDestinations : List (ℤ × ℕ)
  downDestinations : List (ℤ × ℕ)
deriving DecidableEq

/-- Empty FloorDemand (`FloorDemand()`). -/
def FloorDemand.empty : FloorDemand := ⟨0, 0, [], []⟩

/-- Mutable engine state of `GreedyNearestController` (the fields the
dispatch logic reads and writes; zone bounds and dispatch history are not
modelled because none of the properties below depend on them). -/
structure EngineState where
  waitingRequests : List (ℕ × PendingRequest)
  lastKnownTick : ℤ
  pendingAssignmentsCount : List (ℕ × ℤ)
  pendingTargets : List (ℕ × Option ℤ)
  activeTrips : List (ℕ × Trip)
  mode : TrafficMode
  floorSnapshot : List (ℤ × FloorDemand)
  baseFloor : ℤ
  topFloor : ℤ
  idleStationMap : List (ℕ × ℤ)
  elevators : List ElevView
deriving DecidableEq

/-- the configured `reassign_after_ticks` (set to 4 in `__init__`). -/
def reassignAfterTicks : ℤ := 4

/-- Python `x or default` on an optional tick: `None` and the falsy value `0`
both yield the default (as in `request.assigned_tick or self.last_known_tick`). -/
def pythonOr (t : Option ℤ) (d : ℤ) : ℤ :=
  match t with
  | none => d
  | some v => if v = 0 then d else v

/-- Counter-clamped update of `pending_assignments_count`
(`_adjust_pending_count`). -/
def pcAdjust (counts : List (ℕ × ℤ)) (elevatorId : ℕ) (delta : ℤ) : List (ℕ × ℤ) :=
  let current := alGetD counts elevatorId 0 + delta
  alSet counts elevatorId (if 0 < current then current else 0)

/-- Engine-state form of `_adjust_pending_count`. -/
def adjustPendingCount (st : EngineState) (elevatorId : ℕ) (delta : ℤ) : EngineState :=
  { st with pendingAssignmentsCount := pcAdjust st.pendingAssignmentsCount elevatorId delta }

/-- Python `_clear_request_assignment`: decrement the previous assignee's pending
count and erase the request's assignment fields; the updated request is
returned for the caller to store (Python mutates the shared object). -/
def clearRequestAssignment (st : EngineState) (req : PendingRequest) :
    EngineState × PendingRequest :=
  let st' :=
    match req.assignedElevator with
    | some prev => adjustPendingCount st prev (-1)
    | none => st
  (st', { req with assignedElevator := none, assignedTick := none })

/-- Python `_mark_request_assigned`: move the pending count from the previous
assignee (when different) to the new one and stamp the assignment. -/
def markRequestAssigned (st : EngineState) (req : PendingRequest) (elevatorId : ℕ) :
    EngineState × PendingRequest :=
  let st1 :=
    match req.assignedElevator with
    | some prev => if prev ≠ elevatorId then adjustPendingCount st prev (-1) else st
    | none => st
  let st2 :=
    if req.assignedElevator ≠ some elevatorId then adjustPendingCount st1 elevatorId 1 else st1
  (st2, { req with assignedElevator := some elevatorId, assignedTick := some st.lastKnownTick })

/-- first elevator with the given id in the simulator state
(`next((e for e in self.elevators if e.id == assigned_id), None)`). -/
def findElevator (st : EngineState) (elevatorId : ℕ) : Option ElevView :=
  st.elevators.find? (fun e => e.id = elevatorId)

/-- Python `_ensure_assignment_valid`: return the valid assignee, or clear a
stale/dangling assignment and return none; the possibly-updated state and
request accompany the answer. -/
def ensureAssignmentValid (st : EngineState) (req : PendingRequest) :
    EngineState × PendingRequest × Option ℕ :=
  match req.assignedElevator with
  | none => (st, req, none)
  | some assignedId =>
    let waitDuration := st.lastKnownTick - pythonOr req.assignedTick st.lastKnownTick
    match findElevator st assignedId with
    | none =>
      let r := clearRequestAssignment st req
      (r.1, r.2, none)
    | some e =>
      let assignedPending := alGetD st.pendingAssignmentsCount assignedId 0
      let effectiveLoad := assignedPending + (e.passengers : ℤ)
      let busy := !e.stopped || decide (0 < e.passengers)
      if reassignAfterTicks ≤ waitDuration ∧ (busy = true ∨ 1 < effectiveLoad) then
        let r := clearRequestAssignment st req
        (r.1, r.2, none)
      else (st, req, some assignedId)

/-- Python `_elevator_can_serve_request`: `served_floors`, when non-empty, must
contain both the origin and the destination. -/
def elevatorCanServeRequest (e : ElevView) (req : PendingRequest) : Bool :=
  if e.servedFloors.isEmpty then true
  else decide (req.origin ∈ e.servedFloors) && decide (req.destination ∈ e.servedFloors)

/-- Loop body of `_reserve_requests_for_trip`: walk the candidate requests
(given by passenger id, looked up in the shared registry), stop at capacity,
and for each accepted request mark it assigned, bump the reservation, prepend
its origin and insert its destination. -/
def reserveLoop (e : ElevView) (capacity : ℤ) :
    List ℕ → EngineState → Trip → ℤ → EngineState × Trip × ℤ
  | [], st, trip, reserved => (st, trip, reserved)
  | pid :: rest, st, trip, reserved =>
    if capacity ≤ reserved then (st, trip, reserved)
    else
      match alGet st.waitingRequests pid with
      | none => reserveLoop e capacity rest st trip reserved
      | some req =>
        let r1 := ensureAssignmentValid st req
        let st1 := { r1.1 with waitingRequests := alSet r1.1.waitingRequests pid r1.2.1 }
        let req1 := r1.2.1
        let skip : Bool :=
          match r1.2.2 with
          | some assignedId => decide (assignedId ≠ e.id)
          | none => false
        if skip then reserveLoop e capacity rest st1 trip reserved
        else if !elevatorCanServeRequest e req1 then reserveLoop e capacity rest st1 trip reserved
        else
          let r2 := markRequestAssigned st1 req1 e.id
          let st2 := { r2.1 with waitingRequests := alSet r2.1.waitingRequests pid r2.2 }
          let trip1 := trip.adjustReservation req1.origin 1 (some pid)
          let trip2 := trip1.addStop req1.origin true
          let trip3 := trip2.addStop req1.destination false
          reserveLoop e capacity rest st2 trip3 (reserved + 1)

/-- Python `_reserve_requests_for_trip`: run the loop with `reserved = 0`. -/
def reserveRequestsForTrip (st : EngineState) (e : ElevView) (trip : Trip)
    (requests : List ℕ) (capacity : ℤ) : EngineState × Trip × ℤ :=
  reserveLoop e capacity requests st trip 0

/-- Registry part of `on_passenger_call`: record the request only when the
passenger id is not yet present (first call wins). -/
def recordCall (reg : List (ℕ × PendingRequest)) (pid : ℕ) (origin destination : ℤ)
    (dir : Direction) (arriveTick : ℤ) : List (ℕ × PendingRequest) :=
  if (alGet reg pid).isSome then reg
  else alSet reg pid ⟨pid, origin, destination, dir, arriveTick, none, none⟩

/-- Registry/trip reconciliation of `on_passenger_board`: pop the request,
clear its assignment, and release one reserved pickup at its origin on the
boarding car's active trip (the handler afterwards refreshes the operational
context, modelled separately by `refreshOperationalContext`). -/
def onPassengerBoardCore (st : EngineState) (elevatorId : ℕ) (pid : ℕ) : EngineState :=
  match alGet st.waitingRequests pid with
  | none => st
  | some req =>
    let st1 := { st with waitingRequests := alPop st.waitingRequests pid }
    let st2 := (clearRequestAssignment st1 req).1
    match alGet st2.activeTrips elevatorId with
    | none => st2
    | some trip =>
      let trip' := trip.adjustReservation req.origin (-1) (some pid)
      { st2 with activeTrips := alSet st2.activeTrips elevatorId trip' }

/-- Closed integer range `[lo, hi]` as a list (`range(lo, hi + 1)`). -/
def intRange (lo hi : ℤ) : List ℤ :=
  (List.range (hi + 1 - lo).toNat).map (fun i => lo + (i : ℤ))

/-- Counter increment (`Counter[k] += 1`). -/
def counterAdd (c : List (ℤ × ℕ)) (k : ℤ) : List (ℤ × ℕ) :=
  alSet c k (alGetD c k 0 + 1)

/-- Fold one request into the floor snapshot (`setdefault` plus the
direction-keyed count and destination-counter bumps). -/
def snapshotAddRequest (snap : List (ℤ × FloorDemand)) (req : PendingRequest) :
    List (ℤ × FloorDemand) :=
  let d := alGetD snap req.origin FloorDemand.empty
  let d' :=
    match req.direction with
    | .up => { d with upCount := d.upCount + 1,
                      upDestinations := counterAdd d.upDestinations req.destination }
    | .down => { d with downCount := d.downCount + 1,
                        downDestinations := counterAdd d.downDestinations req.destination }
    | .stopped => d
  alSet snap req.origin d'

/-- Python `_rebuild_floor_snapshot`: aggregate all waiting requests, then make sure
every floor of the building is represented (with zero demand). -/
def rebuildFloorSnapshot (reg : List (ℕ × PendingRequest)) (base top : ℤ) :
    List (ℤ × FloorDemand) :=
  let snap := reg.foldl (fun s p => snapshotAddRequest s p.2) []
  (intRange base top).foldl
    (fun s f => if (alGet s f).isSome then s else alSet s f FloorDemand.empty) snap

/-- total `up_count` of a snapshot. -/
def totalUpOf (snap : List (ℤ × FloorDemand)) : ℕ :=
  (snap.map (fun p => p.2.upCount)).sum

/-- total `down_count` of a snapshot. -/
def totalDownOf (snap : List (ℤ × FloorDemand)) : ℕ :=
  (snap.map (fun p => p.2.downCount)).sum

/-- the `up_count` recorded at the base floor. -/
def baseUpOf (snap : List (ℤ × FloorDemand)) (base : ℤ) : ℕ :=
  (alGetD snap base FloorDemand.empty).upCount

/-- largest `down_count` among floors at or above `top_floor - 1`
(`max(..., default=0)`). -/
def topDownOf (snap : List (ℤ × FloorDemand)) (top : ℤ) : ℕ :=
  ((snap.filter (fun p => top - 1 ≤ p.1)).map (fun p => p.2.downCount)).foldl max 0

/-- Python `_analyze_mode`: classify the traffic from the floor snapshot
(`total_up`, `total_down`, `base_up` and `top_down` are the code's local
values `totalUpOf`, `totalDownOf`, `baseUpOf`, `topDownOf`); the float
ratio comparisons `up_ratio >= 0.6` etc. are modelled as exact rationals,
built with `mkRat n d` (equal to `n / d`, see `Rat.mkRat_eq_div`). -/
def analyzeMode (snap : List (ℤ × FloorDemand)) (base top : ℤ) : TrafficMode :=
  if totalUpOf snap + totalDownOf snap = 0 then .interfloor
  else if mkRat 6 10 ≤ mkRat (totalUpOf snap) (totalUpOf snap + totalDownOf snap) ∧
      0 < totalUpOf snap ∧
      mkRat 5 10 ≤ mkRat (baseUpOf snap base) (totalUpOf snap) then .upPeak
  else if mkRat 6 10 ≤ mkRat (totalDownOf snap) (totalUpOf snap + totalDownOf snap) ∧
      0 < totalDownOf snap ∧
      mkRat 4 10 ≤ mkRat (topDownOf snap top) (totalDownOf snap) then .downPeak
  else .interfloor

/-- Registry sweep of `_reset_all_trips`: clear the assignment of every
request that has one, threading the pending-count decrements. -/
def clearAllAssignments :
    List (ℕ × PendingRequest) → List (ℕ × ℤ) → List (ℕ × PendingRequest) × List (ℕ × ℤ)
  | [], counts => ([], counts)
  | (pid, req) :: rest, counts =>
    match req.assignedElevator with
    | some prev =>
      let counts1 := pcAdjust counts prev (-1)
      let r := clearAllAssignments rest counts1
      ((pid, { req with assignedElevator := none, assignedTick := none }) :: r.1, r.2)
    | none =>
      let r := clearAllAssignments rest counts
      ((pid, req) :: r.1, r.2)

/-- Python `_reset_all_trips`: clear every assignment, drop every active trip,
null every pending target, and zero every elevator's pending count. -/
def resetAllTrips (st : EngineState) : EngineState :=
  let r := clearAllAssignments st.waitingRequests st.pendingAssignmentsCount
  let counts := st.elevators.foldl (fun cs e => alSet cs e.id 0) r.2
  { st with
      waitingRequests := r.1
      pendingAssignmentsCount := counts
      activeTrips := []
      pendingTargets := st.pendingTargets.map (fun p => (p.1, (none : Option ℤ))) }

/-- Python `_refresh_operational_context`: rebuild the snapshot, reclassify the
mode, and perform the global reset when the mode changed (the zone
recomputation that also runs here touches only `zone_bounds` and the idle
layout, which the properties below do not involve). -/
def refreshOperationalContext (st : EngineState) : EngineState :=
  let snap := rebuildFloorSnapshot st.waitingRequests st.baseFloor st.topFloor
  let newMode := analyzeMode snap st.baseFloor st.topFloor
  let st' := { st with floorSnapshot := snap, mode := newMode }
  if newMode ≠ st.mode then resetAllTrips st' else st'

/-- Python `_send_elevator_to_idle`: the parking command (target floor of the
`go_to_floor` call it makes), or none when no command is issued. -/
def sendElevatorToIdle (st : EngineState) (e : ElevView) : Option ℤ :=
  if st.waitingRequests ≠ [] then none
  else
    let station := alGetD st.idleStationMap e.id st.baseFloor
    if e.currentFloor ≠ station then some station else none

/-- Idle stopped empty elevator at the base floor used in the balanced
planning scenario. -/
def upPlanElevator : ElevView := ⟨0, 0, true, 0, 8, []⟩

/-- Engine state with two unassigned UP requests, passenger 1 at floor 1
bound for 5 and passenger 2 at floor 3 bound for 6 (the balanced planner
visits them in order of distance from the car at floor 0). -/
def upPlanState : EngineState :=
  { waitingRequests := [(1, ⟨1, 1, 5, .up, 0, none, none⟩), (2, ⟨2, 3, 6, .up, 0, none, none⟩)]
    lastKnownTick := 0
    pendingAssignmentsCount := [(0, 0)]
    pendingTargets := [(0, none)]
    activeTrips := []
    mode := .interfloor
    floorSnapshot := []
    baseFloor := 0
    topFloor := 9
    idleStationMap := [(0, 0)]
    elevators := [upPlanElevator] }

/-- Freshly constructed UP trip, as `_plan_trip_for_elevator` builds it. -/
def freshUpTrip : Trip := ⟨.up, 0, 9, [], [], ∅, none⟩

/-- Trip produced by `_reserve_requests_for_trip` in the balanced scenario. -/
def upPlanReservedTrip : Trip :=
  (reserveRequestsForTrip upPlanState upPlanElevator freshUpTrip [1, 2] 7).2.1

/-- spec formula for the UP_PEAK branch of the classifier:
`U/W >= 0.6 and U > 0 and up_count(base_floor)/U >= 0.5`. -/
def upPeakCond (snap : List (ℤ × FloorDemand)) (base : ℤ) : Prop :=
  (0.6 : ℚ) ≤ (totalUpOf snap : ℚ) / ((totalUpOf snap + totalDownOf snap : ℕ) : ℚ) ∧
    0 < totalUpOf snap ∧
    (0.5 : ℚ) ≤ (baseUpOf snap base : ℚ) / (totalUpOf snap : ℚ)

/-- spec formula for the DOWN_PEAK branch of the classifier:
`D/W >= 0.6 and D > 0 and max(down_count(f) for f >= top_floor - 1)/D >= 0.4`. -/
def downPeakCond (snap : List (ℤ × FloorDemand)) (top : ℤ) : Prop :=
  (0.6 : ℚ) ≤ (totalDownOf snap : ℚ) / ((totalUpOf snap + totalDownOf snap : ℕ) : ℚ) ∧
    0 < totalDownOf snap ∧
    (0.4 : ℚ) ≤ (topDownOf snap top : ℚ) / (totalDownOf snap : ℚ)

instance (snap : List (ℤ × FloorDemand)) (base : ℤ) : Decidable (upPeakCond snap base) := by
  unfold upPeakCond; infer_instance

instance (snap : List (ℤ × FloorDemand)) (top : ℤ) : Decidable (downPeakCond snap top) := by
  unfold downPeakCond; infer_instance

/-- Active trip of car 0 before the board event: it reserved passenger 1 at
floor 3 and nobody else. -/
def boardTrip : Trip := ⟨.up, 0, 9, [3, 5], [(3, 1)], {1}, none⟩

/-- State in which car 0's trip reserved passenger 1 at floor 3 while
passenger 2, also waiting at floor 3, was never reserved by that trip. -/
def boardState : EngineState :=
  { waitingRequests := [(1, ⟨1, 3, 5, .up, 0, some 0, some 1⟩), (2, ⟨2, 3, 6, .up, 0, none, none⟩)]
    lastKnownTick := 5
    pendingAssignmentsCount := [(0, 1)]
    pendingTargets := [(0, none)]
    activeTrips := [(0, boardTrip)]
    mode := .interfloor
    floorSnapshot := []
    baseFloor := 0
    topFloor := 9
    idleStationMap := [(0, 0)]
    elevators := [⟨0, 3, true, 1, 8, []⟩] }

/-- State after the simulator boards the unreserved passenger 2 onto car 0
and the handler refreshes the operational context. -/
def boardResultState : EngineState :=
  refreshOperationalContext (onPassengerBoardCore boardState 0 2)

/-- Trip of car 0 after the board event: the pickup count at floor 3 was
consumed although passenger 1 is still reserved. -/
def boardViolatingTrip : Trip := ⟨.up, 0, 9, [3, 5], [], {1}, none⟩

/-- Active trip of car 0: it reserved passenger 1 at floor 3 at tick 1. -/
def staleServingTrip : Trip := ⟨.up, 0, 9, [3, 5], [(3, 1)], {1}, none⟩

/-- Car 0, currently moving (non-stopped) towards its committed stop. -/
def staleMovingElevator : ElevView := ⟨0, 2, false, 0, 8, []⟩

/-- Car 1, stopped and empty, about to plan a trip of its own. -/
def staleIdleElevator : ElevView := ⟨1, 0, true, 0, 8, []⟩

/-- State at tick 5: passenger 1 was assigned to car 0 at tick 1 (4 ticks
ago) and car 0 is busy, so the stale-reclaim policy will fire. -/
def staleState : EngineState :=
  { waitingRequests := [(1, ⟨1, 3, 5, .up, 0, some 0, some 1⟩)]
    lastKnownTick := 5
    pendingAssignmentsCount := [(0, 1), (1, 0)]
    pendingTargets := [(0, some 3), (1, none)]
    activeTrips := [(0, staleServingTrip)]
    mode := .interfloor
    floorSnapshot := []
    baseFloor := 0
    topFloor := 9
    idleStationMap := [(0, 0), (1, 9)]
    elevators := [staleMovingElevator, staleIdleElevator] }

/-- Result of car 1's reservation pass over passenger 1 in `staleState`. -/
def staleReserveResult : EngineState × Trip × ℤ :=
  reserveRequestsForTrip staleState staleIdleElevator freshUpTrip [1] 7

/-- Request assigned to car 7 at tick 5 (the current tick, so 0 ticks ago). -/
def missingCarRequest : PendingRequest := ⟨1, 0, 1, .up, 0, some 7, some 5⟩

/-- State at tick 5 whose simulator view contains no elevators at all, so
car 7 is missing. -/
def missingCarState : EngineState :=
  { waitingRequests := [(1, missingCarRequest)]
    lastKnownTick := 5
    pendingAssignmentsCount := []
    pendingTargets := []
    activeTrips := []
    mode := .interfloor
    floorSnapshot := []
    baseFloor := 0
    topFloor := 9
    idleStationMap := []
    elevators := [] }

/-- Request assigned to car 0 at tick 3 and examined at tick 9 (6 ticks). -/
def keptAssignRequest : PendingRequest := ⟨1, 2, 5, .up, 0, some 0, some 3⟩

/-- State in which car 0 is stopped and empty with pending count 1, so the
stale assignment of `keptAssignRequest` is nevertheless kept. -/
def keptAssignState : EngineState :=
  { waitingRequests := [(1, keptAssignRequest)]
    lastKnownTick := 9
    pendingAssignmentsCount := [(0, 1)]
    pendingTargets := [(0, none)]
    activeTrips := []
    mode := .interfloor
    floorSnapshot := []
    baseFloor := 0
    topFloor := 9
    idleStationMap := [(0, 0)]
    elevators := [⟨0, 0, true, 0, 8, []⟩] }

/-- Snapshot with four UP requests, three of them from the base floor. -/
def upPeakSnap : List (ℤ × FloorDemand) :=
  [(0, ⟨3, 0, [(5, 3)], []⟩), (2, ⟨1, 0, [(6, 1)], []⟩)]

/-- State cached as UP_PEAK whose registry has emptied, so the next refresh
reclassifies to INTERFLOOR and triggers the global reset. -/
def modeFlipState : EngineState :=
  { waitingRequests := []
    lastKnownTick := 7
    pendingAssignmentsCount := [(0, 2)]
    pendingTargets := [(0, some 5)]
    activeTrips := [(0, boardTrip)]
    mode := .upPeak
    floorSnapshot := []
    baseFloor := 0
    topFloor := 2
    idleStationMap := [(0, 0)]
    elevators := [⟨0, 0, true, 0, 8, []⟩] }

/-- Stopped empty car away from its idle station (floor 4). -/
def parkElevator : ElevView := ⟨0, 2, true, 0, 8, []⟩

/-- State with an empty request registry and car 0's station at floor 4. -/
def parkState : EngineState :=
  { waitingRequests := []
    lastKnownTick := 11
    pendingAssignmentsCount := [(0, 0)]
    pendingTargets := [(0, none)]
    activeTrips := []
    mode := .interfloor
    floorSnapshot := []
    baseFloor := 0
    topFloor := 9
    idleStationMap := [(0, 4)]
    elevators := [parkElevator] }

/-- membership in the ascending insertion. -/
theorem mem_insertAscending {l : List ℤ} {f a : ℤ} :
    a ∈ insertAscending l f ↔ a ∈ l ∨ a = f := by
  induction l with
  | nil => simp [insertAscending]
  | cons x xs ih =>
    simp only [insertAscending]
    split
    · simp only [List.mem_cons]; tauto
    · simp only [List.mem_cons, ih]; tauto

/-- membership in the descending insertion. -/
theorem mem_insertDescending {l : List ℤ} {f a : ℤ} :
    a ∈ insertDescending l f ↔ a ∈ l ∨ a = f := by
  induction l with
  | nil => simp [insertDescending]
  | cons x xs ih =>
    simp only [insertDescending]
    split
    · simp only [List.mem_cons]; tauto
    · simp only [List.mem_cons, ih]; tauto

/-- inserting a fresh floor keeps the stop list duplicate-free. -/
theorem nodup_insertAscending {l : List ℤ} {f : ℤ} (hl : l.Nodup) (hf : f ∉ l) :
    (insertAscending l f).Nodup := by
  induction l with
  | nil => simp [insertAscending]
  | cons x xs ih =>
    have hx : x ∉ xs := (List.nodup_cons.mp hl).1
    have hxs : xs.Nodup := (List.nodup_cons.mp hl).2
    have hfx : f ≠ x := by intro h; exact hf (by simp [h])
    have hfxs : f ∉ xs := by intro h; exact hf (by simp [h])
    simp only [insertAscending]
    split
    · exact List.nodup_cons.mpr ⟨hf, hl⟩
    · refine List.nodup_cons.mpr ⟨?_, ih hxs hfxs⟩
      intro hmem
      rcases mem_insertAscending.mp hmem with h | h
      · exact hx h
      · exact hfx h.symm

/-- inserting a fresh floor keeps the stop list duplicate-free (DOWN). -/
theorem nodup_insertDescending {l : List ℤ} {f : ℤ} (hl : l.Nodup) (hf : f ∉ l) :
    (insertDescending l f).Nodup := by
  induction l with
  | nil => simp [insertDescending]
  | cons x xs ih =>
    have hx : x ∉ xs := (List.nodup_cons.mp hl).1
    have hxs : xs.Nodup := (List.nodup_cons.mp hl).2
    have hfx : f ≠ x := by intro h; exact hf (by simp [h])
    have hfxs : f ∉ xs := by intro h; exact hf (by simp [h])
    simp only [insertDescending]
    split
    · exact List.nodup_cons.mpr ⟨hf, hl⟩
    · refine List.nodup_cons.mpr ⟨?_, ih hxs hfxs⟩
      intro hmem
      rcases mem_insertDescending.mp hmem with h | h
      · exact hx h
      · exact hfx h.symm

/-- ascending insertion of a fresh floor preserves strict sortedness. -/
theorem sorted_insertAscending {l : List ℤ} {f : ℤ}
    (hs : List.Sorted (· < ·) l) (hf : f ∉ l) :
    List.Sorted (· < ·) (insertAscending l f) := by
  induction l with
  | nil => simp [insertAscending]
  | cons x xs ih =>
    rw [List.sorted_cons] at hs
    obtain ⟨hx, hxs⟩ := hs
    have hfx : f ≠ x := by intro h; exact hf (by simp [h])
    have hfxs : f ∉ xs := by intro h; exact hf (by simp [h])
    simp only [insertAscending]
    split
    · rename_i hlt
      rw [List.sorted_cons]
      refine ⟨?_, List.sorted_cons.mpr ⟨hx, hxs⟩⟩
      intro b hb
      rcases List.mem_cons.mp hb with rfl | hb
      · exact hlt
      · exact lt_trans hlt (hx b hb)
    · rename_i hnlt
      have hxf : x < f := lt_of_le_of_ne (not_lt.mp hnlt) (fun h => hfx h.symm)
      rw [List.sorted_cons]
      refine ⟨?_, ih hxs hfxs⟩
      intro b hb
      rcases mem_insertAscending.mp hb with hb | rfl
      · exact hx b hb
      · exact hxf

/-- descending insertion of a fresh floor preserves strict reverse sortedness. -/
theorem sorted_insertDescending {l : List ℤ} {f : ℤ}
    (hs : List.Sorted (· > ·) l) (hf : f ∉ l) :
    List.Sorted (· > ·) (insertDescending l f) := by
  induction l with
  | nil => simp [insertDescending]
  | cons x xs ih =>
    rw [List.sorted_cons] at hs
    obtain ⟨hx, hxs⟩ := hs
    have hfx : f ≠ x := by intro h; exact hf (by simp [h])
    have hfxs : f ∉ xs := by intro h; exact hf (by simp [h])
    simp only [insertDescending]
    split
    · rename_i hgt
      rw [List.sorted_cons]
      refine ⟨?_, List.sorted_cons.mpr ⟨hx, hxs⟩⟩
      intro b hb
      rcases List.mem_cons.mp hb with rfl | hb
      · exact hgt
      · exact gt_trans hgt (hx b hb)
    · rename_i hngt
      have hxf : x > f := lt_of_le_of_ne (not_lt.mp hngt) hfx
      rw [List.sorted_cons]
      refine ⟨?_, ih hxs hfxs⟩
      intro b hb
      rcases mem_insertDescending.mp hb with hb | rfl
      · exact hx b hb
      · exact hxf

/-- add_stop preserves the structural trip invariant. -/
theorem tripInv_addStop {t : Trip} (f : ℤ) (b : Bool) (h : TripInv t) :
    TripInv (t.addStop f b) := by
  obtain ⟨hnd, hcur⟩ := h
  by_cases h1 : t.currentStop = some f
  · simpa [Trip.addStop, h1] using ⟨hnd, hcur⟩
  · cases b with
    | true =>
      by_cases h2 : f ∈ t.stops
      · simp only [Trip.addStop, if_neg h1, if_pos rfl, if_pos h2]
        constructor
        · refine List.nodup_cons.mpr ⟨?_, List.Nodup.filter _ hnd⟩
          simp
        · intro c hc hcm
          rcases List.mem_cons.mp hcm with rfl | hcf
          · exact h1 hc
          · exact hcur c hc (List.mem_of_mem_filter hcf)
      · simp only [Trip.addStop, if_neg h1, if_pos rfl, if_neg h2]
        constructor
        · exact List.nodup_cons.mpr ⟨h2, hnd⟩
        · intro c hc hcm
          rcases List.mem_cons.mp hcm with rfl | hcf
          · exact h1 hc
          · exact hcur c hc hcf
    | false =>
      by_cases h2 : f ∈ t.stops
      · simpa [Trip.addStop, h1, h2] using ⟨hnd, hcur⟩
      · cases hd : t.direction with
        | up =>
          simp only [Trip.addStop, if_neg h1, Bool.false_eq_true, if_false, if_neg h2, hd]
          refine ⟨nodup_insertAscending hnd h2, ?_⟩
          intro c hc hcm
          rcases mem_insertAscending.mp hcm with hcf | rfl
          · exact hcur c hc hcf
          · exact h1 hc
        | down =>
          simp only [Trip.addStop, if_neg h1, Bool.false_eq_true, if_false, if_neg h2, hd]
          refine ⟨nodup_insertDescending hnd h2, ?_⟩
          intro c hc hcm
          rcases mem_insertDescending.mp hcm with hcf | rfl
          · exact hcur c hc hcf
          · exact h1 hc
        | stopped =>
          simp only [Trip.addStop, if_neg h1, Bool.false_eq_true, if_false, if_neg h2, hd]
          constructor
          · rw [List.nodup_append]
            exact ⟨hnd, List.nodup_singleton f, by
              intro a ha hfa
              rcases List.mem_singleton.mp hfa with rfl
              exact h2 ha⟩
          · intro c hc hcm
            rcases List.mem_append.mp hcm with hcf | hcf
            · exact hcur c hc hcf
            · rcases List.mem_singleton.mp hcf with rfl
              exact h1 hc

/-- mark_stop_completed preserves the structural trip invariant. -/
theorem tripInv_markStopCompleted {t : Trip} (f : ℤ) (h : TripInv t) :
    TripInv (t.markStopCompleted f) := by
  obtain ⟨hnd, hcur⟩ := h
  by_cases h1 : t.currentStop = some f
  · simp only [Trip.markStopCompleted, if_pos h1]
    exact ⟨hnd, by intro c hc; exact Option.noConfusion hc⟩
  · simp only [Trip.markStopCompleted, if_neg h1]
    refine ⟨List.Nodup.filter _ hnd, ?_⟩
    intro c hc hcm
    exact hcur c hc (List.mem_of_mem_filter hcm)

/-- pop_next preserves the structural trip invariant. -/
theorem tripInv_popNext {t : Trip} (h : TripInv t) : TripInv (t.popNext).2 := by
  obtain ⟨hnd, hcur⟩ := h
  cases ht : t.currentStop with
  | some c => simpa [Trip.popNext, ht] using ⟨hnd, hcur⟩
  | none =>
    cases hs : t.stops with
    | nil => simpa [Trip.popNext, ht, hs] using ⟨hnd, hcur⟩
    | cons x rest =>
      rw [hs] at hnd
      simp only [Trip.popNext, ht, hs]
      refine ⟨(List.nodup_cons.mp hnd).2, ?_⟩
      intro c hc
      obtain rfl : x = c := Option.some.inj hc
      exact (List.nodup_cons.mp hnd).1

/-- replace_current_stop preserves the structural trip invariant. -/
theorem tripInv_replaceCurrentStop {t : Trip} (f : ℤ) (h : TripInv t) :
    TripInv (t.replaceCurrentStop f) := by
  obtain ⟨hnd, hcur⟩ := h
  by_cases h1 : t.currentStop = some f
  · simpa [Trip.replaceCurrentStop, h1] using ⟨hnd, hcur⟩
  · cases ht : t.currentStop with
    | none =>
      by_cases h2 : f ∈ t.stops
      · simp only [Trip.replaceCurrentStop, if_neg h1, ht, if_pos h2]
        refine ⟨List.Nodup.filter _ hnd, ?_⟩
        intro c hc hcm
        obtain rfl : f = c := Option.some.inj hc
        simp [List.mem_filter] at hcm
      · simp only [Trip.replaceCurrentStop, if_neg h1, ht, if_neg h2]
        refine ⟨hnd, ?_⟩
        intro c hc
        obtain rfl : f = c := Option.some.inj hc
        exact h2
    | some prev =>
      have hpnm : prev ∉ t.stops := hcur prev ht
      rw [ht] at h1
      by_cases h2 : f ∈ prev :: t.stops
      · simp only [Trip.replaceCurrentStop, ht, if_neg h1, if_neg hpnm, if_pos h2]
        constructor
        · exact List.Nodup.filter _ (List.nodup_cons.mpr ⟨hpnm, hnd⟩)
        · intro c hc hcm
          obtain rfl : f = c := Option.some.inj hc
          simp [List.mem_filter] at hcm
      · simp only [Trip.replaceCurrentStop, ht, if_neg h1, if_neg hpnm, if_neg h2]
        refine ⟨List.nodup_cons.mpr ⟨hpnm, hnd⟩, ?_⟩
        intro c hc
        obtain rfl : f = c := Option.some.inj hc
        exact h2

/-- C10: every Trip operation — add_stop in both modes, pop_next,
replace_current_stop, mark_stop_completed — preserves the structural
invariant that the stops sequence contains no duplicate floors and that
current_stop, when set, does not occur in stops. -/
theorem trip_ops_preserve_structural_inv (t : Trip) (f : ℤ) (b : Bool) (h : TripInv t) :
    TripInv (t.addStop f b) ∧ TripInv (t.markStopCompleted f) ∧
      TripInv (t.replaceCurrentStop f) ∧ TripInv (t.popNext).2 :=
  ⟨tripInv_addStop f b h, tripInv_markStopCompleted f h,
    tripInv_replaceCurrentStop f h, tripInv_popNext h⟩

/-- Witness for C10 at a concrete trip. -/
theorem trip_ops_preserve_structural_inv_witness :
    TripInv ((⟨.up, 0, 9, [2, 5], [], ∅, some 3⟩ : Trip).addStop 4 false) :=
  (trip_ops_preserve_structural_inv ⟨.up, 0, 9, [2, 5], [], ∅, some 3⟩ 4 false
    ⟨by decide, by intro c hc; obtain rfl : (3 : ℤ) = c := Option.some.inj hc; decide⟩).1

/-- C7: for every trip whose current_stop is f (under the structural trip
invariant, which all reachable trips satisfy), mark_stop_completed f yields
a trip with current_stop cleared and no occurrence of f in stops. -/
theorem markStopCompleted_clears_current (t : Trip) (f : ℤ)
    (hinv : TripInv t) (hcur : t.currentStop = some f) :
    (t.markStopCompleted f).currentStop = none ∧ f ∉ (t.markStopCompleted f).stops := by
  have hns : f ∉ t.stops := hinv.2 f hcur
  simp only [Trip.markStopCompleted, if_pos hcur]
  exact ⟨trivial, hns⟩

/-- Witness for C7 at a concrete trip. -/
theorem markStopCompleted_clears_current_witness :
    ((⟨.up, 0, 9, [2, 5], [], ∅, some 3⟩ : Trip).markStopCompleted 3).currentStop = none ∧
      (3 : ℤ) ∉ ((⟨.up, 0, 9, [2, 5], [], ∅, some 3⟩ : Trip).markStopCompleted 3).stops :=
  markStopCompleted_clears_current ⟨.up, 0, 9, [2, 5], [], ∅, some 3⟩ 3
    ⟨by decide, by intro c hc; obtain rfl : (3 : ℤ) = c := Option.some.inj hc; decide⟩ rfl

/-- first lookup after a store finds the stored value. -/
theorem alGet_alSet_self {κ α : Type} [DecidableEq κ] (m : List (κ × α)) (k : κ) (v : α) :
    alGet (alSet m k v) k = some v := by
  induction m with
  | nil => simp [alSet, alGet]
  | cons p rest ih =>
    obtain ⟨k', v'⟩ := p
    by_cases h : k' = k
    · subst h; simp [alSet, alGet]
    · simp [alSet, alGet, h, ih]

/-- C8: invoking record_call a second time with the same passenger_id leaves
the request registry exactly as it was after the first call — the first
call's origin, destination, direction, and arrive_tick win. -/
theorem recordCall_idempotent (reg : List (ℕ × PendingRequest)) (pid : ℕ)
    (o d : ℤ) (dir : Direction) (tk : ℤ) (o' d' : ℤ) (dir' : Direction) (tk' : ℤ) :
    recordCall (recordCall reg pid o d dir tk) pid o' d' dir' tk' =
      recordCall reg pid o d dir tk := by
  by_cases h : (alGet reg pid).isSome
  · simp [recordCall, h]
  · simp [recordCall, h, alGet_alSet_self]

/-- C1 counterexample: in balanced UP planning for an idle car at floor 0
with pending requests 1→5 and 3→6, `_reserve_requests_for_trip` prepends
each reserved origin with `to_front=True`; after the dispatch `pop_next`,
the committed-stop-then-stops sequence is [3, 1, 5, 6], which is not
strictly ascending although the trip's direction is UP. -/
theorem reserve_to_front_breaks_ascending :
    upPlanReservedTrip.direction = Direction.up ∧
      ((upPlanReservedTrip.popNext).2).plannedSeq = [3, 1, 5, 6] ∧
      ¬ List.Sorted (· < ·) ([3, 1, 5, 6] : List ℤ) :=
  ⟨by decide, by decide, by decide⟩

/-- C1 (amended): the monotone insertion path of add_stop (`to_front=False`)
does preserve strict ascent of `stops` on an UP trip and strict descent on a
DOWN trip; the invariant claimed for whole trips fails only because
`_reserve_requests_for_trip` prepends reserved origins with `to_front=True`,
bypassing the monotonic rule. -/
theorem addStop_inorder_preserves_sorted (t : Trip) (f : ℤ) :
    (t.direction = Direction.up → List.Sorted (· < ·) t.stops →
        List.Sorted (· < ·) (t.addStop f false).stops) ∧
      (t.direction = Direction.down → List.Sorted (· > ·) t.stops →
        List.Sorted (· > ·) (t.addStop f false).stops) := by
  constructor
  · intro hdir hs
    by_cases h1 : t.currentStop = some f
    · simpa [Trip.addStop, h1] using hs
    · by_cases h2 : f ∈ t.stops
      · simpa [Trip.addStop, h1, h2] using hs
      · simp only [Trip.addStop, if_neg h1, Bool.false_eq_true, if_false, if_neg h2, hdir]
        exact sorted_insertAscending hs h2
  · intro hdir hs
    by_cases h1 : t.currentStop = some f
    · simpa [Trip.addStop, h1] using hs
    · by_cases h2 : f ∈ t.stops
      · simpa [Trip.addStop, h1, h2] using hs
      · simp only [Trip.addStop, if_neg h1, Bool.false_eq_true, if_false, if_neg h2, hdir]
        exact sorted_insertDescending hs h2

/-- Witness for the amended C1 at a concrete trip. -/
theorem addStop_inorder_preserves_sorted_witness :
    List.Sorted (· < ·) ((⟨.up, 0, 9, [2, 5], [], ∅, none⟩ : Trip).addStop 4 false).stops :=
  (addStop_inorder_preserves_sorted ⟨.up, 0, 9, [2, 5], [], ∅, none⟩ 4).1 rfl (by decide)

/-- a successful lookup exposes a member of the list. -/
theorem alGet_mem {κ α : Type} [DecidableEq κ] {m : List (κ × α)} {k : κ} {v : α}
    (h : alGet m k = some v) : (k, v) ∈ m := by
  induction m with
  | nil => simp [alGet] at h
  | cons p rest ih =>
    obtain ⟨k', v'⟩ := p
    by_cases hk : k' = k
    · subst hk
      rw [alGet, if_pos rfl] at h
      obtain rfl := Option.some.inj h
      exact List.mem_cons_self _ _
    · rw [alGet, if_neg hk] at h
      exact List.mem_cons_of_mem _ (ih h)

/-- lookup at a different key is unaffected by a store. -/
theorem alGet_alSet_ne {κ α : Type} [DecidableEq κ] (m : List (κ × α)) (k k' : κ) (v : α)
    (h : k ≠ k') : alGet (alSet m k v) k' = alGet m k' := by
  induction m with
  | nil => simp [alSet, alGet, h]
  | cons p rest ih =>
    obtain ⟨k0, v0⟩ := p
    by_cases hk : k0 = k
    · subst hk; simp [alSet, alGet, h]
    · simp [alSet, alGet, hk, ih]

/-- storing at an absent key appends it, adding its value to the sum. -/
theorem pickSum_alSet_of_get_none (m : List (ℤ × ℤ)) (k v : ℤ) (h : alGet m k = none) :
    pickSum (alSet m k v) = pickSum m + v := by
  induction m with
  | nil => simp [alSet, pickSum]
  | cons p rest ih =>
    obtain ⟨k', v'⟩ := p
    by_cases hk : k' = k
    · rw [alGet, if_pos hk] at h; exact absurd h (by simp)
    · rw [alGet, if_neg hk] at h
      simp only [alSet, if_neg hk, pickSum, List.map_cons, List.sum_cons] at *
      rw [ih h]; ring

/-- storing over the first binding of a key adjusts the sum by the
difference with the first stored value. -/
theorem pickSum_alSet_of_get_some (m : List (ℤ × ℤ)) (k v w : ℤ) (h : alGet m k = some w) :
    pickSum (alSet m k v) = pickSum m - w + v := by
  induction m with
  | nil => simp [alGet] at h
  | cons p rest ih =>
    obtain ⟨k', v'⟩ := p
    by_cases hk : k' = k
    · rw [alGet, if_pos hk] at h
      obtain rfl := Option.some.inj h
      simp only [alSet, if_pos hk, pickSum, List.map_cons, List.sum_cons]
      ring
    · rw [alGet, if_neg hk] at h
      simp only [alSet, if_neg hk, pickSum, List.map_cons, List.sum_cons]
      have := ih h
      simp only [pickSum] at this
      rw [this]; ring

/-- popping a key that is not bound leaves the list unchanged. -/
theorem alPop_of_not_mem_keys {κ α : Type} [DecidableEq κ] (m : List (κ × α)) (k : κ)
    (h : k ∉ m.map Prod.fst) : alPop m k = m := by
  induction m with
  | nil => rfl
  | cons p rest ih =>
    obtain ⟨k', v'⟩ := p
    have hk : k' ≠ k := by intro hkk; exact h (by simp [hkk])
    have hrest : k ∉ rest.map Prod.fst := by intro hm; exact h (by simp [hm])
    simp only [alPop, List.filter_cons]
    rw [if_pos (by simpa using hk)]
    rw [show List.filter (fun p => p.1 ≠ k) rest = alPop rest k from rfl, ih hrest]

/-- popping the key of a duplicate-free map removes exactly its first
binding's value from the sum. -/
theorem pickSum_alPop (m : List (ℤ × ℤ)) (k w : ℤ)
    (hnd : alKeysNodup m) (h : alGet m k = some w) :
    pickSum (alPop m k) = pickSum m - w := by
  induction m with
  | nil => simp [alGet] at h
  | cons p rest ih =>
    obtain ⟨k', v'⟩ := p
    have hnd' : alKeysNodup rest := (List.nodup_cons.mp hnd).2
    by_cases hk : k' = k
    · subst hk
      rw [alGet, if_pos rfl] at h
      obtain rfl := Option.some.inj h
      have hout : k' ∉ rest.map Prod.fst := (List.nodup_cons.mp hnd).1
      simp only [alPop, List.filter_cons]
      rw [if_neg (by simp)]
      rw [show List.filter (fun p => p.1 ≠ k') rest = alPop rest k' from rfl,
        alPop_of_not_mem_keys rest k' hout]
      simp [pickSum]
    · rw [alGet, if_neg hk] at h
      simp only [alPop, List.filter_cons]
      rw [if_pos (by simpa using hk)]
      have := ih hnd' h
      rw [show List.filter (fun p => p.1 ≠ k) rest = alPop rest k from rfl]
      simp only [pickSum, List.map_cons, List.sum_cons] at *
      rw [this]; ring

/-- C2 counterexample: car 0's trip reserved only passenger 1 (at floor 3,
pickup count 1). The simulator boards the unreserved waiting passenger 2
from floor 3; `on_passenger_board` decrements the pickup count at floor 3
and discards passenger 2 from the reserved set (a no-op), leaving
`sum(reserved_pickups.values()) = 0` but `|reserved_passengers| = 1` at the
end of the handler (the mode does not change, so the trip survives the
context refresh, and the boarding car is non-empty, so the wake pass skips
it). -/
theorem board_unreserved_breaks_balance :
    alGet boardResultState.activeTrips 0 = some boardViolatingTrip ∧
      pickSum boardViolatingTrip.reservedPickups ≠
        (boardViolatingTrip.reservedPassengers.card : ℤ) :=
  ⟨by decide, by decide⟩

/-- C2 (amended): the reservation-count balance
`sum(reserved_pickups.values()) = |reserved_passengers|` is preserved by
`adjust_reservation` on every path the engine itself drives: reserving a
passenger not yet in the set (`delta = +1`), and releasing on boarding a
passenger the trip did reserve while its origin holds a positive pickup
count (`delta = -1`); boarding a waiting passenger the trip never reserved
can break the balance. -/
theorem adjustReservation_preserves_balance (t : Trip) (f : ℤ) (pid : ℕ)
    (hkeys : alKeysNodup t.reservedPickups)
    (hpos : ∀ p ∈ t.reservedPickups, 1 ≤ p.2)
    (hbal : pickSum t.reservedPickups = (t.reservedPassengers.card : ℤ)) :
    (pid ∉ t.reservedPassengers →
      pickSum (t.adjustReservation f 1 (some pid)).reservedPickups =
        (((t.adjustReservation f 1 (some pid)).reservedPassengers.card : ℤ))) ∧
      (pid ∈ t.reservedPassengers → (alGet t.reservedPickups f).isSome →
        pickSum (t.adjustReservation f (-1) (some pid)).reservedPickups =
          (((t.adjustReservation f (-1) (some pid)).reservedPassengers.card : ℤ))) := by
  constructor
  · intro hnm
    cases hg : alGet t.reservedPickups f with
    | none =>
      have hv : ¬ (alGetD t.reservedPickups f 0 + 1 ≤ 0) := by
        simp [alGetD, hg]
      simp only [Trip.adjustReservation, if_neg (by norm_num : ¬ (1 : ℤ) = 0), if_neg hv,
        if_pos (by norm_num : (0 : ℤ) < 1)]
      rw [pickSum_alSet_of_get_none _ _ _ hg, hbal,
        Finset.card_insert_of_not_mem hnm]
      push_cast
      simp [alGetD, hg]
    | some w =>
      have hw : 1 ≤ w := hpos (f, w) (alGet_mem hg)
      have hv : ¬ (alGetD t.reservedPickups f 0 + 1 ≤ 0) := by
        simp only [alGetD, hg, Option.getD_some]
        omega
      simp only [Trip.adjustReservation, if_neg (by norm_num : ¬ (1 : ℤ) = 0), if_neg hv,
        if_pos (by norm_num : (0 : ℤ) < 1)]
      rw [pickSum_alSet_of_get_some _ _ _ w hg, hbal,
        Finset.card_insert_of_not_mem hnm]
      push_cast
      simp only [alGetD, hg, Option.getD_some]
      ring
  · intro hm hsome
    obtain ⟨w, hg⟩ := Option.isSome_iff_exists.mp hsome
    have hw : 1 ≤ w := hpos (f, w) (alGet_mem hg)
    have hcard : 1 ≤ t.reservedPassengers.card := Finset.card_pos.mpr ⟨pid, hm⟩
    by_cases hv : alGetD t.reservedPickups f 0 + (-1) ≤ 0
    · simp only [Trip.adjustReservation, if_neg (by norm_num : ¬ (-1 : ℤ) = 0), if_pos hv,
        if_neg (by norm_num : ¬ (0 : ℤ) < (-1 : ℤ))]
      rw [pickSum_alPop _ _ w hkeys hg, hbal, Finset.card_erase_of_mem hm]
      have : w = 1 := by
        simp only [alGetD, hg, Option.getD_some] at hv
        omega
      subst this
      push_cast [Nat.cast_sub hcard]
      ring
    · simp only [Trip.adjustReservation, if_neg (by norm_num : ¬ (-1 : ℤ) = 0), if_neg hv,
        if_neg (by norm_num : ¬ (0 : ℤ) < (-1 : ℤ))]
      rw [pickSum_alSet_of_get_some _ _ _ w hg, hbal, Finset.card_erase_of_mem hm]
      push_cast [Nat.cast_sub hcard]
      simp only [alGetD, hg, Option.getD_some]
      ring

/-- Witness for the amended C2 at a concrete trip. -/
theorem adjustReservation_preserves_balance_witness :
    pickSum (((⟨.up, 0, 9, [], [(3, 1)], {1}, none⟩ : Trip).adjustReservation 3 1
          (some 2)).reservedPickups) =
      ((((⟨.up, 0, 9, [], [(3, 1)], {1}, none⟩ : Trip).adjustReservation 3 1
          (some 2)).reservedPassengers.card : ℤ)) :=
  (adjustReservation_preserves_balance ⟨.up, 0, 9, [], [(3, 1)], {1}, none⟩ 3 2
    (by decide) (by decide) (by decide)).1 (by decide)

/-- C3 counterexample: passenger 1 is reserved by car 0's active trip and
was assigned to it 4 ticks ago; car 0 is busy (non-stopped). When car 1
plans, `_ensure_assignment_valid` stale-clears the assignment without
touching car 0's trip, and `_reserve_requests_for_trip` then reserves
passenger 1 for car 1 as well, so the passenger id sits in the
reserved_passengers of two active trips at the end of the handler (car 1's
trip has pending stops, so `_assign_trip_or_idle` stores it). -/
theorem stale_reclaim_double_reservation :
    1 ∈ staleServingTrip.reservedPassengers ∧
      alGet (staleReserveResult.1).activeTrips 0 = some staleServingTrip ∧
      1 ∈ (staleReserveResult.2.1).reservedPassengers ∧
      (staleReserveResult.2.1).hasPending = true ∧
      (alGet (staleReserveResult.1).waitingRequests 1).map
          (fun r => r.assignedElevator) = some (some 1) :=
  ⟨by decide, by decide, by decide, by decide, by decide⟩

/-- C3 (amended): whenever every reserved passenger of every active trip
still has its request assigned to that trip's car (the reservation coupling
the planner establishes), each passenger_id lies in the reserved_passengers
of at most one active trip; the stale-reclaim path voids the coupling by
clearing the assignment while leaving the passenger in the old car's trip,
after which a second car may reserve the same passenger. -/
theorem coupled_reservations_unique (st : EngineState)
    (hcouple : ∀ c T, alGet st.activeTrips c = some T →
        ∀ pid ∈ T.reservedPassengers,
          ∃ req, alGet st.waitingRequests pid = some req ∧ req.assignedElevator = some c)
    (c c' : ℕ) (T T' : Trip)
    (hT : alGet st.activeTrips c = some T) (hT' : alGet st.activeTrips c' = some T')
    (pid : ℕ) (hp : pid ∈ T.reservedPassengers) (hp' : pid ∈ T'.reservedPassengers) :
    c = c' := by
  obtain ⟨r, hr, ha⟩ := hcouple c T hT pid hp
  obtain ⟨r', hr', ha'⟩ := hcouple c' T' hT' pid hp'
  rw [hr] at hr'
  obtain rfl : r = r' := Option.some.inj hr'
  exact Option.some.inj (ha.symm.trans ha')

/-- Witness for the amended C3 in `staleState` (before the reclaim, where
the coupling holds). -/
theorem coupled_reservations_unique_witness : (0 : ℕ) = 0 := by
  refine coupled_reservations_unique staleState ?_ 0 0 staleServingTrip staleServingTrip
    (by decide) (by decide) 1 (by decide) (by decide)
  intro c T hT pid hp
  by_cases hc : (0 : ℕ) = c
  · subst hc
    have hTs : staleServingTrip = T := by
      have : alGet staleState.activeTrips 0 = some staleServingTrip := by decide
      rw [this] at hT
      exact Option.some.inj hT
    subst hTs
    have hpid : pid = 1 := by
      have : staleServingTrip.reservedPassengers = {1} := by decide
      rw [this] at hp
      exact Finset.mem_singleton.mp hp
    subst hpid
    exact ⟨⟨1, 3, 5, .up, 0, some 0, some 1⟩, by decide, rfl⟩
  · exfalso
    have : alGet staleState.activeTrips c = none := by
      show alGet [(0, staleServingTrip)] c = none
      rw [alGet, if_neg hc]
      rfl
    rw [this] at hT
    exact Option.noConfusion hT

/-- C4 counterexample: a request assigned to car 7 at the current tick (0
ticks ago, fewer than the 4-tick staleness bound) is examined while car 7 is
absent from the simulator state; `_ensure_assignment_valid` clears the
assignment and returns none, where the claim requires every request assigned
for fewer than 4 ticks to keep its assignee. -/
theorem missing_car_cleared_before_four_ticks :
    missingCarState.lastKnownTick -
        pythonOr missingCarRequest.assignedTick missingCarState.lastKnownTick = 0 ∧
      (ensureAssignmentValid missingCarState missingCarRequest).2.2 = none ∧
      (ensureAssignmentValid missingCarState missingCarRequest).2.1.assignedElevator = none :=
  ⟨by decide, by decide, by decide⟩

/-- C4 (amended): `_ensure_assignment_valid` clears a request's assignment
exactly when an assignee is recorded and either that car is missing from the
simulator state (regardless of how long the request has been assigned), or
the measured wait `last_known_tick - (assigned_tick or last_known_tick)`
(Python's `or` treats an assigned_tick of 0 like an unset one) is at least
reassign_after_ticks = 4 and the car is non-stopped, or carries passengers,
or has effective_load = pending_count + passengers > 1; in every other case
the state and the request are untouched and the recorded assignee is
returned. -/
theorem ensureAssignmentValid_characterization (st : EngineState) (req : PendingRequest)
    (a : ℕ) (h : req.assignedElevator = some a) :
    ((ensureAssignmentValid st req).2.2 = none ↔
      findElevator st a = none ∨
        (reassignAfterTicks ≤ st.lastKnownTick - pythonOr req.assignedTick st.lastKnownTick ∧
          ∃ e, findElevator st a = some e ∧
            (e.stopped = false ∨ 0 < e.passengers ∨
              1 < alGetD st.pendingAssignmentsCount a 0 + (e.passengers : ℤ)))) ∧
      ((ensureAssignmentValid st req).2.2 = none →
        (ensureAssignmentValid st req).2.1.assignedElevator = none) ∧
      ((ensureAssignmentValid st req).2.2 ≠ none →
        ensureAssignmentValid st req = (st, req, some a)) := by
  cases hf : findElevator st a with
  | none =>
    have hres : (ensureAssignmentValid st req).2.2 = none := by
      simp only [ensureAssignmentValid, h, hf]
    refine ⟨iff_of_true hres (Or.inl rfl), fun _ => ?_, fun hne => absurd hres hne⟩
    simp only [ensureAssignmentValid, h, hf, clearRequestAssignment]
  | some e =>
    have hbusy : ((!e.stopped || decide (0 < e.passengers)) = true ∨
          1 < alGetD st.pendingAssignmentsCount a 0 + (e.passengers : ℤ)) ↔
        (e.stopped = false ∨ 0 < e.passengers ∨
          1 < alGetD st.pendingAssignmentsCount a 0 + (e.passengers : ℤ)) := by
      simp [Bool.or_eq_true, Bool.not_eq_true', or_assoc]
    by_cases hcond : reassignAfterTicks ≤
          st.lastKnownTick - pythonOr req.assignedTick st.lastKnownTick ∧
        ((!e.stopped || decide (0 < e.passengers)) = true ∨
          1 < alGetD st.pendingAssignmentsCount a 0 + (e.passengers : ℤ))
    · have hres : (ensureAssignmentValid st req).2.2 = none := by
        simp only [ensureAssignmentValid, h, hf]
        rw [if_pos hcond]
      refine ⟨iff_of_true hres (Or.inr ⟨hcond.1, e, rfl, hbusy.mp hcond.2⟩),
        fun _ => ?_, fun hne => absurd hres hne⟩
      simp only [ensureAssignmentValid, h, hf]
      rw [if_pos hcond]
      simp [clearRequestAssignment]
    · have hres : ensureAssignmentValid st req = (st, req, some a) := by
        simp only [ensureAssignmentValid, h, hf]
        rw [if_neg hcond]
      refine ⟨iff_of_false (by rw [hres]; simp) ?_, fun hcontra => ?_, fun _ => hres⟩
      · rintro (hc | ⟨hw, e', he', hb⟩)
        · exact Option.noConfusion hc
        · obtain rfl : e = e' := Option.some.inj he'
          exact hcond ⟨hw, hbusy.mpr hb⟩
      · rw [hres] at hcontra
        exact Option.noConfusion hcontra

/-- Witness for the amended C4: a request assigned 6 ticks ago to a stopped,
empty car with effective load 1 keeps its assignment untouched. -/
theorem ensureAssignmentValid_characterization_witness :
    ensureAssignmentValid keptAssignState keptAssignRequest =
      (keptAssignState, keptAssignRequest, some 0) :=
  (ensureAssignmentValid_characterization keptAssignState keptAssignRequest 0 rfl).2.2
    (by decide)

/-- the UP_PEAK test as computed by the code coincides with the spec
formula over true rational division. -/
theorem upPeakCond_iff_code (snap : List (ℤ × FloorDemand)) (base : ℤ) :
    (mkRat 6 10 ≤ mkRat (totalUpOf snap) (totalUpOf snap + totalDownOf snap) ∧
        0 < totalUpOf snap ∧
        mkRat 5 10 ≤ mkRat (baseUpOf snap base) (totalUpOf snap)) ↔
      upPeakCond snap base := by
  unfold upPeakCond
  rw [show (mkRat 6 10 : ℚ) = (0.6 : ℚ) by norm_num [Rat.mkRat_eq_div],
    show (mkRat 5 10 : ℚ) = (0.5 : ℚ) by norm_num [Rat.mkRat_eq_div],
    Rat.mkRat_eq_div, Rat.mkRat_eq_div]
  push_cast
  exact Iff.rfl

/-- the DOWN_PEAK test as computed by the code coincides with the spec
formula over true rational division. -/
theorem downPeakCond_iff_code (snap : List (ℤ × FloorDemand)) (top : ℤ) :
    (mkRat 6 10 ≤ mkRat (totalDownOf snap) (totalUpOf snap + totalDownOf snap) ∧
        0 < totalDownOf snap ∧
        mkRat 4 10 ≤ mkRat (topDownOf snap top) (totalDownOf snap)) ↔
      downPeakCond snap top := by
  unfold downPeakCond
  rw [show (mkRat 6 10 : ℚ) = (0.6 : ℚ) by norm_num [Rat.mkRat_eq_div],
    show (mkRat 4 10 : ℚ) = (0.4 : ℚ) by norm_num [Rat.mkRat_eq_div],
    Rat.mkRat_eq_div, Rat.mkRat_eq_div]
  push_cast
  exact Iff.rfl

/-- C5: with U, D the snapshot's up/down totals and W = U + D, the mode
classifier returns INTERFLOOR exactly when W = 0 or neither peak condition
holds; UP_PEAK exactly when W ≠ 0, U/W ≥ 0.6, U > 0 and
up_count(base_floor)/U ≥ 0.5; and DOWN_PEAK exactly when W ≠ 0, the UP_PEAK
condition fails, D/W ≥ 0.6, D > 0 and the maximum down_count over floors
≥ top_floor − 1 divided by D is ≥ 0.4. -/
theorem analyzeMode_characterization (snap : List (ℤ × FloorDemand)) (base top : ℤ) :
    (analyzeMode snap base top = .interfloor ↔
        (totalUpOf snap + totalDownOf snap = 0 ∨
          (¬ upPeakCond snap base ∧ ¬ downPeakCond snap top))) ∧
      (analyzeMode snap base top = .upPeak ↔
        (totalUpOf snap + totalDownOf snap ≠ 0 ∧ upPeakCond snap base)) ∧
      (analyzeMode snap base top = .downPeak ↔
        (totalUpOf snap + totalDownOf snap ≠ 0 ∧ ¬ upPeakCond snap base ∧
          downPeakCond snap top)) := by
  by_cases hW : totalUpOf snap + totalDownOf snap = 0
  · unfold analyzeMode
    rw [if_pos hW]
    exact ⟨iff_of_true rfl (Or.inl hW),
      iff_of_false (by decide) (fun hc => hc.1 hW),
      iff_of_false (by decide) (fun hc => hc.1 hW)⟩
  · by_cases hU : upPeakCond snap base
    · have hcodeU : mkRat 6 10 ≤ mkRat (totalUpOf snap) (totalUpOf snap + totalDownOf snap) ∧
          0 < totalUpOf snap ∧
          mkRat 5 10 ≤ mkRat (baseUpOf snap base) (totalUpOf snap) :=
        (upPeakCond_iff_code snap base).mpr hU
      unfold analyzeMode
      rw [if_neg hW, if_pos hcodeU]
      refine ⟨iff_of_false (by decide) ?_, iff_of_true rfl ⟨hW, hU⟩,
        iff_of_false (by decide) (fun hc => hc.2.1 hU)⟩
      rintro (hc | ⟨hnu, _⟩)
      · exact hW hc
      · exact hnu hU
    · have hcodeU : ¬ (mkRat 6 10 ≤ mkRat (totalUpOf snap) (totalUpOf snap + totalDownOf snap) ∧
          0 < totalUpOf snap ∧
          mkRat 5 10 ≤ mkRat (baseUpOf snap base) (totalUpOf snap)) :=
        fun hc => hU ((upPeakCond_iff_code snap base).mp hc)
      by_cases hD : downPeakCond snap top
      · have hcodeD : mkRat 6 10 ≤ mkRat (totalDownOf snap) (totalUpOf snap + totalDownOf snap) ∧
            0 < totalDownOf snap ∧
            mkRat 4 10 ≤ mkRat (topDownOf snap top) (totalDownOf snap) :=
          (downPeakCond_iff_code snap top).mpr hD
        unfold analyzeMode
        rw [if_neg hW, if_neg hcodeU, if_pos hcodeD]
        refine ⟨iff_of_false (by decide) ?_,
          iff_of_false (by decide) (fun hc => hU hc.2),
          iff_of_true rfl ⟨hW, hU, hD⟩⟩
        rintro (hc | ⟨_, hnd⟩)
        · exact hW hc
        · exact hnd hD
      · have hcodeD : ¬ (mkRat 6 10 ≤ mkRat (totalDownOf snap) (totalUpOf snap + totalDownOf snap) ∧
            0 < totalDownOf snap ∧
            mkRat 4 10 ≤ mkRat (topDownOf snap top) (totalDownOf snap)) :=
          fun hc => hD ((downPeakCond_iff_code snap top).mp hc)
        unfold analyzeMode
        rw [if_neg hW, if_neg hcodeU, if_neg hcodeD]
        exact ⟨iff_of_true rfl (Or.inr ⟨hU, hD⟩),
          iff_of_false (by decide) (fun hc => hU hc.2),
          iff_of_false (by decide) (fun hc => hD hc.2.2)⟩

/-- Witness for C5: the concrete snapshot with four UP requests, three of
them at the base floor, classifies as UP_PEAK. -/
theorem analyzeMode_characterization_witness : analyzeMode upPeakSnap 0 9 = .upPeak := by
  refine (analyzeMode_characterization upPeakSnap 0 9).2.1.mpr ⟨by decide, ?_, ?_, ?_⟩
  · show (0.6 : ℚ) ≤ (totalUpOf upPeakSnap : ℚ) /
        ((totalUpOf upPeakSnap + totalDownOf upPeakSnap : ℕ) : ℚ)
    rw [show totalUpOf upPeakSnap = 4 by decide, show totalDownOf upPeakSnap = 0 by decide]
    norm_num
  · show 0 < totalUpOf upPeakSnap
    decide
  · show (0.5 : ℚ) ≤ (baseUpOf upPeakSnap 0 : ℚ) / (totalUpOf upPeakSnap : ℚ)
    rw [show baseUpOf upPeakSnap 0 = 3 by decide, show totalUpOf upPeakSnap = 4 by decide]
    norm_num

/-- every request surviving the reset sweep has no assignment. -/
theorem clearAllAssignments_lookup (reg : List (ℕ × PendingRequest)) (counts : List (ℕ × ℤ)) :
    ∀ pid req, alGet (clearAllAssignments reg counts).1 pid = some req →
      req.assignedElevator = none := by
  induction reg generalizing counts with
  | nil => intro pid req h; simp [clearAllAssignments, alGet] at h
  | cons p rest ih =>
    obtain ⟨k, r⟩ := p
    intro pid req h
    cases ha : r.assignedElevator with
    | some prev =>
      simp only [clearAllAssignments, ha] at h
      rw [alGet] at h
      by_cases hk : k = pid
      · rw [if_pos hk] at h
        obtain rfl := Option.some.inj h
        rfl
      · rw [if_neg hk] at h
        exact ih _ pid req h
    | none =>
      simp only [clearAllAssignments, ha] at h
      rw [alGet] at h
      by_cases hk : k = pid
      · rw [if_pos hk] at h
        obtain rfl := Option.some.inj h
        exact ha
      · rw [if_neg hk] at h
        exact ih _ pid req h

/-- zeroing a fold of elevator counts keeps an already-zero entry zero. -/
theorem zeroFold_preserves (l : List ElevView) (m : List (ℕ × ℤ)) (k : ℕ)
    (h : alGetD m k 0 = 0) :
    alGetD (l.foldl (fun cs e => alSet cs e.id 0) m) k 0 = 0 := by
  induction l generalizing m with
  | nil => exact h
  | cons e rest ih =>
    simp only [List.foldl_cons]
    apply ih
    by_cases hk : e.id = k
    · subst hk
      simp [alGetD, alGet_alSet_self]
    · rw [alGetD, alGet_alSet_ne _ _ _ _ hk]
      exact h

/-- after the zeroing fold every listed elevator's count is zero. -/
theorem zeroFold_mem (l : List ElevView) (m : List (ℕ × ℤ)) :
    ∀ e ∈ l, alGetD (l.foldl (fun cs x => alSet cs x.id 0) m) e.id 0 = 0 := by
  induction l generalizing m with
  | nil => intro e he; simp at he
  | cons x rest ih =>
    intro e he
    simp only [List.foldl_cons]
    rcases List.mem_cons.mp he with rfl | he'
    · exact zeroFold_preserves rest _ e.id (by simp [alGetD, alGet_alSet_self])
    · exact ih _ e he'

/-- C6: whenever the classified mode differs from the cached mode, the
context refresh performs the global reset: every request's assignment is
cleared, every active Trip is discarded, every pending target is cleared,
and every car's pending count is left at 0, so the counts sum to 0. -/
theorem mode_change_resets_engine (st : EngineState)
    (h : analyzeMode (rebuildFloorSnapshot st.waitingRequests st.baseFloor st.topFloor)
          st.baseFloor st.topFloor ≠ st.mode) :
    (∀ pid req, alGet (refreshOperationalContext st).waitingRequests pid = some req →
        req.assignedElevator = none) ∧
      (refreshOperationalContext st).activeTrips = [] ∧
      (∀ p ∈ (refreshOperationalContext st).pendingTargets, p.2 = none) ∧
      (∀ e ∈ st.elevators,
        alGetD (refreshOperationalContext st).pendingAssignmentsCount e.id 0 = 0) ∧
      (st.elevators.map
          (fun e => alGetD (refreshOperationalContext st).pendingAssignmentsCount e.id 0)).sum
        = 0 := by
  have hrw : refreshOperationalContext st =
      resetAllTrips { st with
        floorSnapshot := rebuildFloorSnapshot st.waitingRequests st.baseFloor st.topFloor
        mode := analyzeMode (rebuildFloorSnapshot st.waitingRequests st.baseFloor st.topFloor)
          st.baseFloor st.topFloor } := by
    unfold refreshOperationalContext
    rw [if_pos h]
  rw [hrw]
  refine ⟨?_, rfl, ?_, ?_, ?_⟩
  · intro pid req hget
    exact clearAllAssignments_lookup _ _ pid req hget
  · intro p hp
    simp only [resetAllTrips, List.mem_map] at hp
    obtain ⟨q, _, rfl⟩ := hp
    rfl
  · intro e he
    exact zeroFold_mem _ _ e he
  · apply List.sum_eq_zero
    intro x hx
    simp only [List.mem_map] at hx
    obtain ⟨e, he, rfl⟩ := hx
    exact zeroFold_mem _ _ e he

/-- Witness for C6: the cached UP_PEAK state with an empty registry is
reclassified and fully reset. -/
theorem mode_change_resets_engine_witness :
    (refreshOperationalContext modeFlipState).activeTrips = [] ∧
      alGetD (refreshOperationalContext modeFlipState).pendingAssignmentsCount 0 0 = 0 := by
  have hx := mode_change_resets_engine modeFlipState (by decide)
  exact ⟨hx.2.1, hx.2.2.2.1 ⟨0, 0, true, 0, 8, []⟩ (by decide)⟩

/-- C9: `_send_elevator_to_idle` issues a parking command exactly when the
request registry is empty and the car stands away from its idle station, and
the command's target is precisely that station; in particular the engine
never sends a car to park while the registry is non-empty. -/
theorem park_only_when_registry_empty (st : EngineState) (e : ElevView) (f : ℤ) :
    sendElevatorToIdle st e = some f ↔
      st.waitingRequests = [] ∧ f = alGetD st.idleStationMap e.id st.baseFloor ∧
        e.currentFloor ≠ f := by
  unfold sendElevatorToIdle
  by_cases h1 : st.waitingRequests = []
  · rw [if_neg (by simpa using h1)]
    by_cases h2 : e.currentFloor ≠ alGetD st.idleStationMap e.id st.baseFloor
    · rw [if_pos h2]
      constructor
      · intro hsome
        obtain rfl : alGetD st.idleStationMap e.id st.baseFloor = f :=
          Option.some.inj hsome
        exact ⟨h1, rfl, h2⟩
      · rintro ⟨_, rfl, _⟩
        rfl
    · rw [if_neg h2]
      constructor
      · intro hc
        exact Option.noConfusion hc
      · rintro ⟨_, rfl, hne⟩
        exact absurd hne h2
  · rw [if_pos h1]
    constructor
    · intro hc
      exact Option.noConfusion hc
    · rintro ⟨hreg, _, _⟩
      exact absurd hreg h1

/-- Witness for C9: with an empty registry and car 0 at floor 2, the parking
command targets the idle station at floor 4. -/
theorem park_only_when_registry_empty_witness :
    sendElevatorToIdle parkState parkElevator = some 4 :=
  (park_only_when_registry_empty parkState parkElevator 4).mpr ⟨rfl, by decide, by decide⟩
